import Mathlib

/-!
# smallsh: tokenizer, redirection, status tracking and signal handlers

A shallow embedding of `src/smallsh.c`.

* C strings are lists of characters (the bytes before the terminating NUL).
* A `char**` argument array is a list of cells; a cell is `none` for the NULL
  pointer.  The cells behind the terminating NULL are part of the list: the
  in-place shifting loops of `executeCommand` read them.
* Heap blocks have the size that was asked of `malloc`; storing a string that
  does not fit in its block is a failure of the model (`none`).
* The operating system is a record of oracles (`Env`): which files open, what
  `execvp` does with a vector, which pids `fork` hands out, which children the
  non-blocking sweep finds.
* `malloc` and `fork` succeed, `open` on a NULL pointer fails, and no signal
  from outside ends a child of the interpreter.
* Loops over an argument array carry a `fuel` argument; the theorems show that
  the fuel the callers pass is enough on every NULL-terminated array.
-/

namespace SmallSh

/-! ## Data model -/

/-- A C string: the characters in front of the terminating NUL. -/
abbrev CStr := List Char

/-- One `char*` cell of an argument array; `none` is the NULL pointer. -/
abbrev Cell := Option CStr

/-- The constant of `#define MAX_COMMAND_LENGTH 2048`. -/
def MAX_COMMAND_LENGTH : Nat := 2048

/-- The constant of `#define MAX_ARGUMENTS 512`. -/
def MAX_ARGUMENTS : Nat := 512

/-- Signal numbers of Linux on x86 and ARM (`<signal.h>`). -/
def SIGINT : Int := 2

/-- Number of the terminate signal. -/
def SIGTERM : Int := 15

/-- Number of the terminal-stop signal. -/
def SIGTSTP : Int := 20

/-- The global variables of `smallsh.c` (lines 13-17) together with the local
variable `background` of `main`, which lives across loop iterations. -/
structure ShellState where
  lastForegroundStatus : Int
  foregroundChildPid : Int
  allowBackground : Int
  backgroundFlag : Int
  backgroundTerminationInitiated : Int
  background : Int
  deriving DecidableEq, Repr

/-- The operating system as seen by one loop iteration. -/
structure Env where
  /-- What a read behind the end of the argument block returns. -/
  junk : Cell
  /-- Contents of the block `malloc(MAX_ARGUMENTS * sizeof(char*))` returns. -/
  heap : List Cell
  /-- Whether `open(path, O_RDONLY)` and the `dup2` after it succeed. -/
  readable : CStr → Bool
  /-- Whether `open(path, O_WRONLY | O_CREAT | O_TRUNC, 0666)` and the `dup2`
  after it succeed. -/
  writable : CStr → Bool
  /-- The call `execvp(args[0], args)`: `none` when it returns (failure),
  `some s` when the program runs and ends with raw wait status `s`. -/
  exec : List CStr → Option Int
  /-- Result of `getpid()` in the interpreter. -/
  shellPID : Int
  /-- Pid `fork` returns to the interpreter in `main`. -/
  forkPid : Int
  /-- Pid `fork` returns inside `executeCommand`. -/
  innerPid : Int
  /-- Children `waitpid(-1, &childStatus, WNOHANG)` finds, with their status. -/
  reaped : List (Int × Int)

/-! ## Wait status (`<sys/wait.h>`, glibc encoding) -/

/-- The status `W_EXITCODE(ret, sig)`, that is `(ret) << 8 | (sig)` for `sig < 256`. -/
def W_EXITCODE (ret sig : Int) : Int := ret * 256 + sig

/-- The field `WTERMSIG(status)`, that is `status & 0x7f`. -/
def WTERMSIG (status : Int) : Int := status % 128

/-- The test `WIFEXITED(status)`, that is `WTERMSIG(status) == 0`. -/
def WIFEXITED (status : Int) : Bool := WTERMSIG status == 0

/-- The field `WEXITSTATUS(status)`, that is `(status & 0xff00) >> 8`. -/
def WEXITSTATUS (status : Int) : Int := (status / 256) % 256

/-- The test `WIFSIGNALED(status)`, that is
`((signed char) ((status & 0x7f) + 1) >> 1) > 0`. -/
def WIFSIGNALED (status : Int) : Bool :=
  let t := status % 128 + 1
  let sc := if t ≥ 128 then t - 256 else t
  decide (sc / 2 > 0)

/-- The conversion `%d` of `printf`. -/
def fmtD (n : Int) : String := toString n

/-! ## Reading a line (lines 66-91) -/

/-- The test of `handleBlankAndComment`: `command[0] == '#' || strlen(command) == 0`. -/
def handleBlankAndComment (command : CStr) : Bool :=
  match command with
  | [] => true
  | c :: _ => c == '#'

/-- One call of `strtok` with the delimiter string `" "`, started at the saved
position `s`: leading delimiters are skipped; at the end of the string the
result is NULL (`none`); otherwise the token runs up to the next delimiter,
which is overwritten by NUL, and the saved position moves behind it. -/
def strtok (s : CStr) : Option (CStr × CStr) :=
  match s.dropWhile (· == ' ') with
  | [] => none
  | c :: cs =>
    some ((c :: cs).takeWhile (· != ' '), ((c :: cs).dropWhile (· != ' ')).tail)

/-- The loop of `tokenizeCommand` (lines 85-88); `fuel` bounds the iterations. -/
def tokenizeLoop : Nat → Option (CStr × CStr) → Nat → List Cell → Nat × List Cell
  | 0, _, argCount, args => (argCount, args)
  | _ + 1, none, argCount, args => (argCount, args)
  | fuel + 1, some (token, saved), argCount, args =>
    if argCount < MAX_ARGUMENTS - 1 then
      tokenizeLoop fuel (strtok saved) (argCount + 1) (args.set argCount (some token))
    else (argCount, args)

/-- The function `tokenizeCommand`: the block `heap` is filled with the tokens of `command`
and `args[argCount] = NULL` is written behind them. -/
def tokenizeCommand (heap : List Cell) (command : CStr) : List Cell :=
  let r := tokenizeLoop (command.length + 1) (strtok command) 0 heap
  r.2.set r.1 none

/-- The argument vector a reader of a NULL-terminated array sees: the cells in
front of the first NULL. -/
def argv : List Cell → List CStr
  | some t :: rest => t :: argv rest
  | _ => []

/-- The string at `command` once `tokenizeCommand` has run: `strtok` has
written a NUL over the delimiter that ends the first token. -/
def afterStrtok (command : CStr) : CStr :=
  command.takeWhile (· == ' ') ++ (command.dropWhile (· == ' ')).takeWhile (· != ' ')

/-- Splitting on runs of spaces, in the words of the specification: cut the
line at every space and keep the pieces that are not empty. -/
def spaceRuns (line : CStr) : List CStr :=
  (line.splitOnP (· == ' ')).filter (fun t => !t.isEmpty)

/-! ## `expand_pid` (lines 94-123) -/

/-- Writing the string `s` and its NUL into a block of `cap` bytes. -/
def store (cap : Nat) (s : CStr) : Option CStr :=
  if s.length + 1 ≤ cap then some s else none

/-- The call `strstr(hay, needle)`: offset of the leftmost occurrence. -/
def strstr (needle : CStr) : CStr → Option Nat
  | [] => if needle = [] then some 0 else none
  | c :: cs =>
    if needle <+: c :: cs then some 0 else (strstr needle cs).map (· + 1)

/-- The function `expand_pid`: `pid_str` is a block of 10 bytes filled by `sprintf`, `result`
a block of `strlen(command) + 1` bytes filled by `strncpy`, two `strcat`, or
`strcpy`. -/
def expand_pid (command : CStr) (shellPID : Int) : Option CStr := do
  let pid_str ← store 10 (fmtD shellPID).toList
  let cap := command.length + 1
  match strstr "$$".toList command with
  | some pos =>
    let r0 ← store cap (command.take pos)
    let r1 ← store cap (r0 ++ pid_str)
    store cap (r1 ++ command.drop (pos + 2))
  | none => store cap command

/-- The expansion in the words of the specification: the text in front of the
leftmost marker, the decimal process id, the text behind the marker. -/
def expandFirst (line : CStr) (pid : Int) : CStr :=
  match strstr "$$".toList line with
  | some pos => line.take pos ++ (fmtD pid).toList ++ line.drop (pos + 2)
  | none => line

/-! ## `handleStatus` (lines 126-135) -/

/-- The function `handleStatus`: the text written to standard output. -/
def handleStatus (status : Int) : String :=
  if WIFEXITED status then "exit value " ++ fmtD (WEXITSTATUS status) ++ "\n"
  else if WIFSIGNALED status then "terminated by signal " ++ fmtD (WTERMSIG status) ++ "\n"
  else ""

/-- The loop `while ((terminatedChild = waitpid(-1, &childStatus, WNOHANG)) > 0)`
of lines 168-171 and 417-420: the text it prints for the children found. -/
def reapSweep : List (Int × Int) → String
  | [] => ""
  | (pid, status) :: rest =>
    "background pid " ++ fmtD pid ++ " is done: " ++ handleStatus status ++ reapSweep rest

/-! ## `executeCommand` (lines 207-321) -/

/-- Reading `args[i]`; a read behind the end of the block yields `junk`. -/
def readCell (junk : Cell) (args : List Cell) (i : Nat) : Cell := args.getD i junk

/-- The scanning loops of lines 222-229 and 259-266: the index of the first
cell equal to `op`, or `none` when the loop ends at a NULL (the index variable
keeps `-1`).  `fuel` bounds the iterations. -/
def findOperator (junk : Cell) (op : CStr) (args : List Cell) : Nat → Nat → Option Nat
  | 0, _ => none
  | fuel + 1, i =>
    match readCell junk args i with
    | none => none
    | some t => if t = op then some i else findOperator junk op args fuel (i + 1)

/-- The shifting loops of lines 249-253 and 286-290:
`while (args[j] != NULL) { args[j] = args[j + 2]; j++; }`. -/
def shiftArgs (junk : Cell) : Nat → Nat → List Cell → List Cell
  | 0, _, args => args
  | fuel + 1, j, args =>
    match readCell junk args j with
    | none => args
    | some _ => shiftArgs junk fuel (j + 1) (args.set j (readCell junk args (j + 2)))

/-- The call `open(path, ...)` with the `dup2` behind it: on a NULL pointer
`open` fails with EFAULT, otherwise the file system decides. -/
def openFile (canOpen : CStr → Bool) : Cell → Bool
  | none => false
  | some path => canOpen path

/-- One redirection block (lines 219-254 for `<`, lines 256-291 for `>`):
`none` when the child leaves through `exit(1)`, otherwise the array after the
block. -/
def redirect (junk : Cell) (op : CStr) (canOpen : CStr → Bool) (args : List Cell) :
    Option (List Cell) :=
  match findOperator junk op args (args.length + 1) 0 with
  | none => some args
  | some idx =>
    if openFile canOpen (readCell junk args (idx + 1)) then
      some (shiftArgs junk (args.length + 1) idx args)
    else none

/-- How the child branch of `executeCommand` ends. -/
inductive ChildOutcome where
  /-- The child called `exit(code)` in front of `execvp`. -/
  | exited (code : Int)
  /-- The child called `execvp(args[0], args)`; `vector` is `args` read up to
  its first NULL. -/
  | execvp (vector : List CStr)
  deriving DecidableEq, Repr

/-- The child branch of `executeCommand` (lines 213-297) up to the call of
`execvp`. -/
def executeCommand_child (env : Env) (args : List Cell) : ChildOutcome :=
  match redirect env.junk "<".toList env.readable args with
  | none => .exited 1
  | some args1 =>
    match redirect env.junk ">".toList env.writable args1 with
    | none => .exited 1
    | some args2 => .execvp (argv args2)

/-- The raw wait status of the child of `executeCommand`: `exit(code)` in front
of `execvp`, `exit(1)` when `execvp` returns (lines 295-297), otherwise the
status of the program that was started. -/
def childWaitStatus (env : Env) : ChildOutcome → Int
  | .exited code => W_EXITCODE code 0
  | .execvp vector =>
    match env.exec vector with
    | none => W_EXITCODE 1 0
    | some status => status

/-- The foreground branch of a parent (lines 300-314 in `executeCommand`,
lines 397-411 in `main`): track the child, wait for it, print or record its
status, clear the tracked pid. -/
def foregroundWait (st : ShellState) (childPid childStatus : Int) : ShellState × String :=
  let st1 := { st with foregroundChildPid := childPid }
  let r : ShellState × String :=
    if WIFEXITED childStatus && WEXITSTATUS childStatus == 1 then (st1, "exit value 1\n")
    else ({ st1 with lastForegroundStatus := childStatus }, "")
  ({ r.1 with foregroundChildPid := -1 }, r.2)

/-- The parent branch of `executeCommand` (lines 298-320), run by the process
that called `executeCommand`, with `childPid` the pid `fork` returned. -/
def executeCommand (env : Env) (st : ShellState) (args : List Cell) (background : Int)
    (childPid : Int) : ShellState × String :=
  if background = 0 then
    foregroundWait st childPid (childWaitStatus env (executeCommand_child env args))
  else (st, "background pid is " ++ fmtD childPid ++ "\n")

/-! ## Signal handlers (lines 32-51 and 138-203) -/

/-- The function `setupSignalHandlers`: besides installing the three handlers it stores its
argument in `backgroundFlag`. -/
def setupSignalHandlers (background : Int) (st : ShellState) : ShellState :=
  { st with backgroundFlag := background }

/-- The handler `sigintHandler` run by the process with pid `self`: `none` when the
process leaves through `exit(2)`. -/
def sigintHandler (self signo : Int) (st : ShellState) : Option ShellState :=
  if signo = SIGINT then
    if self = st.foregroundChildPid then none else some st
  else some st

/-- The handler `sigtstpHandler` run by the process with pid `self`; `reaped` are the
children its sweep finds. -/
def sigtstpHandler (self : Int) (reaped : List (Int × Int)) (signo : Int) (st : ShellState) :
    ShellState × String :=
  if signo = SIGTSTP then
    if self ≠ 0 then
      let st1 := { st with allowBackground := if st.allowBackground = 1 then 0 else 1 }
      if st1.allowBackground ≠ 0 then (st1, "\nExiting foreground-only mode\n")
      else (st1, "\nEntering foreground-only mode (& is now ignored)\n" ++ reapSweep reaped)
    else (st, "\nForeground-only mode cannot be applied to the shell process\n")
  else (st, "")

/-- The handler `sigtermHandler`: the state after the handler and whether it reached
`execlp("pkill", "pkill", "-SIGTERM", "-g", pgid_str, NULL)`, the broadcast to
the process group. -/
def sigtermHandler (signo : Int) (st : ShellState) : ShellState × Bool :=
  if signo = SIGTERM then
    let background := st.backgroundFlag
    if background ≠ 0 ∧ st.backgroundTerminationInitiated = 0 then
      ({ st with backgroundTerminationInitiated := 1 }, true)
    else (st, false)
  else (st, false)

/-- Delivering the terminate signal `n` times in succession: the state
afterwards and the number of broadcasts performed. -/
def deliverSigterm : Nat → ShellState → ShellState × Nat
  | 0, st => (st, 0)
  | n + 1, st =>
    let r := sigtermHandler SIGTERM st
    let r2 := deliverSigterm n r.1
    (r2.1, (if r.2 then 1 else 0) + r2.2)

/-! ## `main` (lines 332-427) -/

/-- The initial values of the globals (lines 13-17) and of `background`
(line 333). -/
def initialState : ShellState :=
  { lastForegroundStatus := 0, foregroundChildPid := -1, allowBackground := 1,
    backgroundFlag := 0, backgroundTerminationInitiated := 0, background := 0 }

/-- The state in front of the first loop iteration: line 334 has called
`setupSignalHandlers(background)` with `background = 0`. -/
def startUp : ShellState := setupSignalHandlers initialState.background initialState

/-- The branch of the builtin `status` (lines 375-383): the text printed. -/
def statusBuiltin (st : ShellState) : String :=
  if st.lastForegroundStatus = -1 then "exit value 0\n"
  else handleStatus st.lastForegroundStatus

/-- The loop `while (args[i] != NULL) i++` of lines 349-351. -/
def countArgs (junk : Cell) (args : List Cell) : Nat → Nat → Nat
  | 0, i => i
  | fuel + 1, i =>
    match readCell junk args i with
    | none => i
    | some _ => countArgs junk args fuel (i + 1)

/-- What one loop iteration hands to the dispatcher of lines 360-425. -/
inductive Dispatch where
  /-- The builtin `cd` with `args[1]`. -/
  | cd (path : Cell)
  /-- The builtin `status`. -/
  | status
  /-- The last branch: `fork`, then `executeCommand(args, background)` in the
  child; the interpreter blocks in `waitpid(childPid, ..., 0)` exactly when
  `background` is 0. -/
  | launch (vector : List CStr) (background : Int)
  deriving DecidableEq, Repr

/-- How one iteration of the loop of `main` ends. -/
inductive LoopStep where
  /-- The `continue` of line 342: nothing else was done. -/
  | skipped
  /-- A store behind the end of a heap block in `expand_pid`. -/
  | heapOverflow
  /-- Line 360 passed `args[0] == NULL` to `strcmp`. -/
  | nullArgv0
  /-- The interpreter called `exit(code)`. -/
  | exits (code : Int)
  /-- The iteration reached its end: the new state, the text the interpreter
  wrote, the text the forked child wrote, and what was dispatched. -/
  | next (st : ShellState) (out childOut : String) (d : Dispatch)
  deriving DecidableEq, Repr

/-- Lines 346-358: detection of a trailing `&`.  Returns `background` and the
array. -/
def checkBackground (junk : Cell) (st : ShellState) (args : List Cell) : Int × List Cell :=
  match readCell junk args 0 with
  | none => (st.background, args)
  | some _ =>
    let i := countArgs junk args (args.length + 1) 0
    if i > 0 ∧ readCell junk args (i - 1) = some "&".toList then
      (1, args.set (i - 1) none)
    else (0, args)

/-- One iteration of the loop of `main` on the line `command` that `prompt`
returned. -/
def mainIteration (env : Env) (st : ShellState) (command : CStr) : LoopStep :=
  if handleBlankAndComment command then .skipped
  else
    let args0 := tokenizeCommand env.heap command
    -- line 345: the result is assigned to `command`, which is not read again
    match expand_pid (afterStrtok command) env.shellPID with
    | none => .heapOverflow
    | some _ =>
      let r := checkBackground env.junk st args0
      let background := r.1
      let args := r.2
      let st1 := { st with background := background }
      match readCell env.junk args 0 with
      | none => .nullArgv0
      | some a0 =>
        if a0 = "exit".toList then .exits 0
        else if a0 = "cd".toList then .next st1 "" "" (.cd (readCell env.junk args 1))
        else if a0 = "status".toList then
          .next st1 (statusBuiltin st1) "" .status
        else
          -- the child of line 390 runs executeCommand and then exit(0)
          let childOut := (executeCommand env st1 args background env.innerPid).2
          let r2 : ShellState × String :=
            if background = 0 then foregroundWait st1 env.forkPid (W_EXITCODE 0 0)
            else (st1, "background pid is " ++ fmtD env.forkPid ++ "\n" ++ reapSweep env.reaped)
          .next { r2.1 with backgroundTerminationInitiated := 0 } r2.2 childOut
            (.launch (argv args) background)

/-! ## The redirection contract in the words of the specification -/

/-- The vector without its first token equal to `op` and without the token
that follows it; every other token stays, in order. -/
def removeFirstPair (op : CStr) : List CStr → List CStr
  | [] => []
  | t :: ts => if t = op then ts.tail else t :: removeFirstPair op ts

/-- The first token equal to `op`, if there is one, is followed by a token. -/
def operandPresent (op : CStr) : List CStr → Bool
  | [] => true
  | t :: ts => if t = op then !ts.isEmpty else operandPresent op ts

/-- The cell behind the first token equal to `op`: `none` when the vector has
no such token, `some none` when that token is the last one. -/
def redirectTarget (op : CStr) : List CStr → Option Cell
  | [] => none
  | t :: ts => if t = op then some ts.head? else redirectTarget op ts

/-- Offset of the first token equal to `op`, the value the scanning loop
computes. -/
def firstIndex (op : CStr) : List CStr → Option Nat
  | [] => none
  | t :: ts => if t = op then some 0 else (firstIndex op ts).map (· + 1)

/-- The `open` of one redirection block succeeds, or the block has nothing to
open. -/
def redirectOk (op : CStr) (canOpen : CStr → Bool) (toks : List CStr) : Bool :=
  match redirectTarget op toks with
  | none => true
  | some c => openFile canOpen c

/-- The condition of lines 308 and 405: a normal exit with code exactly 1. -/
def exitedWithOne (status : Int) : Bool := WIFEXITED status && WEXITSTATUS status == 1

/-- Foreground children waited for one after the other, each given by the pid
`fork` returned and the raw status `waitpid` stored. -/
def waitAll (st : ShellState) (children : List (Int × Int)) : ShellState :=
  children.foldl (fun s c => (foregroundWait s c.1 c.2).1) st

/-- The most recent status of the list that is not a normal exit with code 1,
and `init` when the list has none. -/
def lastRecorded (init : Int) (statuses : List Int) : Int :=
  (statuses.reverse.find? (fun s => !exitedWithOne s)).getD init

/-- An operating system in which every file opens and no program is found. -/
def sampleEnv : Env :=
  { junk := none, heap := List.replicate MAX_ARGUMENTS none,
    readable := fun _ => true, writable := fun _ => true,
    exec := fun _ => none, shellPID := 42, forkPid := 100, innerPid := 101, reaped := [] }

/-- The launch of the command fails inside the child of `executeCommand`: the
child leaves in front of `execvp` (a redirection file did not open), or
`execvp` returns. -/
def launchFails (env : Env) (args : List Cell) : Bool :=
  match executeCommand_child env args with
  | .exited _ => true
  | .execvp vector => (env.exec vector).isNone

/-- The states of the interpreter: the state behind `setupSignalHandlers` in
`main`, every state a loop iteration or a signal handler leads to, and the
states in which the interpreter is blocked in `waitpid` on a child. -/
inductive Reachable : ShellState → Prop where
  | start : Reachable startUp
  | command (env : Env) (line : CStr) {st st1 : ShellState} {out childOut : String}
      {d : Dispatch} : Reachable st →
      mainIteration env st line = .next st1 out childOut d → Reachable st1
  | waiting (childPid background : Int) {st : ShellState} : Reachable st →
      Reachable { st with foregroundChildPid := childPid, background := background }
  | sigint (self signo : Int) {st st1 : ShellState} : Reachable st →
      sigintHandler self signo st = some st1 → Reachable st1
  | sigtstp (self : Int) (reaped : List (Int × Int)) (signo : Int) {st : ShellState} :
      Reachable st → Reachable (sigtstpHandler self reaped signo st).1
  | sigterm (signo : Int) {st : ShellState} :
      Reachable st → Reachable (sigtermHandler signo st).1

/-- An operating system in which no file opens. -/
def noFileEnv : Env :=
  { sampleEnv with readable := fun _ => false, writable := fun _ => false,
                   exec := fun _ => some 0 }

/-- An operating system in which every program is found, runs, and ends with
exit code 2, as `ls` does on a path that does not exist. -/
def exitTwoEnv : Env :=
  { sampleEnv with exec := fun _ => some (W_EXITCODE 2 0) }

/-- The cells from index `j` on as the shifting loop started at `j` leaves
them: every cell in front of the first NULL takes the value two cells
further on. -/
def shiftTail (junk : Cell) : List Cell → List Cell
  | some _ :: tl => tl.getD 1 junk :: shiftTail junk tl
  | A => A

/-! # Theorems -/

/-! ## Tokenizing -/

theorem splitOnP_takeWhile_dropWhile (p : Char → Bool) (xs : List Char) :
    xs.splitOnP p = xs.takeWhile (fun c => !p c) ::
      (if xs.dropWhile (fun c => !p c) = [] then []
       else (xs.dropWhile (fun c => !p c)).tail.splitOnP p) := by
  induction xs with
  | nil => simp
  | cons x xs ih =>
    rw [List.splitOnP_cons]
    by_cases hx : p x = true
    · simp [hx]
    · simp only [hx, if_false]
      rw [ih]
      simp [hx, List.modifyHead]

theorem spaceRuns_nil : spaceRuns [] = [] := by
  simp [spaceRuns]

theorem spaceRuns_space (cs : CStr) : spaceRuns (' ' :: cs) = spaceRuns cs := by
  simp [spaceRuns, List.splitOnP_cons]

theorem spaceRuns_dropWhile (s : CStr) : spaceRuns (s.dropWhile (· == ' ')) = spaceRuns s := by
  induction s with
  | nil => rfl
  | cons c cs ih =>
    by_cases hc : c = ' '
    · subst hc
      simp only [List.dropWhile_cons, beq_self_eq_true, if_true, ih, spaceRuns_space]
    · simp [List.dropWhile_cons, hc]

theorem spaceRuns_cons_ne (c : Char) (cs : CStr) (hc : c ≠ ' ') :
    spaceRuns (c :: cs) = (c :: cs).takeWhile (· != ' ') ::
      spaceRuns ((c :: cs).dropWhile (· != ' ')).tail := by
  unfold spaceRuns
  rw [splitOnP_takeWhile_dropWhile]
  have e : (fun c : Char => !(c == ' ')) = (fun c => c != ' ') := rfl
  rw [e]
  by_cases hd : (c :: cs).dropWhile (· != ' ') = []
  · rw [if_pos hd, hd]
    simp [hc]
  · rw [if_neg hd]
    simp [hc]

theorem strtok_none (s : CStr) (h : strtok s = none) : spaceRuns s = [] := by
  unfold strtok at h
  rw [← spaceRuns_dropWhile]
  split at h
  · next e => rw [e]; exact spaceRuns_nil
  · simp at h

theorem head_dropWhile_space (s : CStr) (c : Char) (cs : CStr)
    (e : s.dropWhile (· == ' ') = c :: cs) : c ≠ ' ' := by
  have := List.head_dropWhile_not (· == ' ') s (by simp [e])
  simpa [e] using this

theorem length_dropWhile_le (p : Char → Bool) (s : CStr) : (s.dropWhile p).length ≤ s.length := by
  induction s with
  | nil => simp
  | cons c cs ih =>
    rw [List.dropWhile_cons]
    split
    · simp; omega
    · simp

theorem strtok_some (s t rest : CStr) (h : strtok s = some (t, rest)) :
    spaceRuns s = t :: spaceRuns rest ∧ rest.length < s.length ∧ t ≠ [] ∧ ' ' ∉ t := by
  unfold strtok at h
  split at h
  · simp at h
  · next c cs e =>
    have hc := head_dropWhile_space s c cs e
    simp only [Option.some.injEq, Prod.mk.injEq] at h
    obtain ⟨h1, h2⟩ := h
    refine ⟨?_, ?_, ?_, ?_⟩
    · rw [← spaceRuns_dropWhile, e, spaceRuns_cons_ne c cs hc, h1, h2]
    · have l1 := length_dropWhile_le (· == ' ') s
      have l2 := length_dropWhile_le (· != ' ') (c :: cs)
      rw [e] at l1
      rw [← h2, List.length_tail]
      simp only [List.length_cons] at l1 l2
      omega
    · rw [← h1]; simp [List.takeWhile_cons, hc]
    · rw [← h1]
      intro hm
      have := List.mem_takeWhile_imp hm
      simp at this

theorem argv_map_some (ts : List CStr) (rest : List Cell) :
    argv (ts.map some ++ none :: rest) = ts := by
  induction ts with
  | nil => rfl
  | cons t ts ih => simp [argv, ih]

theorem set_length_map_some (pre : List CStr) (c x : Cell) (post : List Cell) :
    (pre.map some ++ c :: post).set pre.length x = pre.map some ++ x :: post := by
  have h : pre.length = (pre.map some).length := by simp
  rw [h, List.set_append_right _ _ (le_refl _)]
  simp

theorem tokenizeLoop_spec (fuel : Nat) : ∀ (s : CStr) (pre : List CStr) (post : List Cell),
    s.length < fuel → pre.length + post.length = MAX_ARGUMENTS → post ≠ [] →
    ∃ post', tokenizeLoop fuel (strtok s) pre.length (pre.map some ++ post)
        = (((pre ++ spaceRuns s).take (MAX_ARGUMENTS - 1)).length,
           ((pre ++ spaceRuns s).take (MAX_ARGUMENTS - 1)).map some ++ post')
      ∧ post' ≠ [] := by
  induction fuel with
  | zero => intro s pre post h; omega
  | succ fuel ih =>
    intro s pre post hf hlen hpost
    have hpre : pre.length ≤ MAX_ARGUMENTS - 1 := by
      cases post with
      | nil => exact absurd rfl hpost
      | cons c post => simp only [List.length_cons] at hlen; omega
    cases h : strtok s with
    | none =>
      refine ⟨post, ?_, hpost⟩
      rw [strtok_none s h, List.append_nil, List.take_of_length_le hpre]
      rfl
    | some p =>
      obtain ⟨t, rest⟩ := p
      obtain ⟨hr, hl, -, -⟩ := strtok_some s t rest h
      by_cases hk : pre.length < MAX_ARGUMENTS - 1
      · cases post with
        | nil => exact absurd rfl hpost
        | cons c post =>
          have hpost2 : post ≠ [] := by
            intro e
            subst e
            simp only [List.length_cons, List.length_nil] at hlen
            omega
          have := ih rest (pre ++ [t]) post (by omega)
            (by simp only [List.length_append, List.length_cons, List.length_nil] at hlen ⊢; omega)
            hpost2
          obtain ⟨post', h1, h2⟩ := this
          refine ⟨post', ?_, h2⟩
          rw [hr]
          simp only [tokenizeLoop, hk, if_true, set_length_map_some]
          have e1 : pre.map some ++ some t :: post = (pre ++ [t]).map some ++ post := by simp
          have e2 : pre.length + 1 = (pre ++ [t]).length := by simp
          have e3 : pre ++ t :: spaceRuns rest = pre ++ [t] ++ spaceRuns rest := by simp
          rw [e1, e2, h1, e3]
      · refine ⟨post, ?_, hpost⟩
        have hk2 : pre.length = MAX_ARGUMENTS - 1 := by omega
        have e : (pre ++ spaceRuns s).take (MAX_ARGUMENTS - 1) = pre := by
          rw [← hk2]; simp
        rw [e]
        simp only [tokenizeLoop, hk, if_false]

theorem tokenizeCommand_buffer (heap : List Cell) (line : CStr)
    (hheap : heap.length = MAX_ARGUMENTS) :
    ∃ rest, tokenizeCommand heap line
      = ((spaceRuns line).take (MAX_ARGUMENTS - 1)).map some ++ none :: rest := by
  have hne : heap ≠ [] := by
    intro e; rw [e] at hheap; simp [MAX_ARGUMENTS] at hheap
  obtain ⟨post', h1, h2⟩ := tokenizeLoop_spec (line.length + 1) line [] heap (by omega)
    (by simpa using hheap) hne
  simp only [List.map_nil, List.nil_append, List.length_nil] at h1
  cases post' with
  | nil => exact absurd rfl h2
  | cons c post' =>
    refine ⟨post', ?_⟩
    unfold tokenizeCommand
    simp only [h1]
    have := set_length_map_some ((spaceRuns line).take (MAX_ARGUMENTS - 1)) c none post'
    simp

/-! ## Redirection -/

theorem readCell_append_length (junk : Cell) (P A : List Cell) (k : Nat) :
    readCell junk (P ++ A) (P.length + k) = readCell junk A k := by
  unfold readCell
  rw [List.getD_eq_getElem?_getD, List.getD_eq_getElem?_getD,
    List.getElem?_append_right (by omega)]
  simp

theorem findOperator_spec (junk : Cell) (op : CStr) (rest : List Cell) :
    ∀ (ts : List CStr) (P : List Cell) (fuel : Nat), ts.length < fuel →
      findOperator junk op (P ++ (ts.map some ++ none :: rest)) fuel P.length
        = (firstIndex op ts).map (· + P.length) := by
  intro ts
  induction ts with
  | nil =>
    intro P fuel hf
    cases fuel with
    | zero => omega
    | succ fuel =>
      have hr := readCell_append_length junk P (none :: rest) 0
      simp only [Nat.add_zero] at hr
      have hr2 : readCell junk (none :: rest) 0 = none := rfl
      simp only [List.map_nil, List.nil_append, findOperator, hr, hr2, firstIndex]
      rfl
  | cons t ts ih =>
    intro P fuel hf
    cases fuel with
    | zero => omega
    | succ fuel =>
      have hr := readCell_append_length junk P (some t :: (ts.map some ++ none :: rest)) 0
      simp only [Nat.add_zero] at hr
      have hr2 : readCell junk (some t :: (ts.map some ++ none :: rest)) 0 = some t := rfl
      simp only [List.map_cons, List.cons_append, findOperator, hr, hr2, firstIndex]
      by_cases h : t = op
      · simp [h]
      · simp only [h, if_false]
        have e : P ++ some t :: (ts.map some ++ none :: rest)
            = (P ++ [some t]) ++ (ts.map some ++ none :: rest) := by simp
        have e2 : P.length + 1 = (P ++ [some t]).length := by simp
        rw [e, e2, ih (P ++ [some t]) fuel (by simp only [List.length_cons] at hf; omega)]
        cases firstIndex op ts with
        | none => rfl
        | some i => simp; omega

theorem shiftArgs_spec (junk : Cell) (rest : List Cell) :
    ∀ (us : List CStr) (P : List Cell) (fuel : Nat), us.length < fuel →
      shiftArgs junk fuel P.length (P ++ (us.map some ++ none :: rest))
        = P ++ shiftTail junk (us.map some ++ none :: rest) := by
  intro us
  induction us with
  | nil =>
    intro P fuel hf
    cases fuel with
    | zero => omega
    | succ fuel =>
      have hr := readCell_append_length junk P (none :: rest) 0
      simp only [Nat.add_zero] at hr
      have hr2 : readCell junk (none :: rest) 0 = none := rfl
      simp only [List.map_nil, List.nil_append, shiftArgs, hr, hr2, shiftTail]
  | cons u us ih =>
    intro P fuel hf
    cases fuel with
    | zero => omega
    | succ fuel =>
      have hr := readCell_append_length junk P (some u :: (us.map some ++ none :: rest)) 0
      simp only [Nat.add_zero] at hr
      have hr2 : readCell junk (some u :: (us.map some ++ none :: rest)) 0 = some u := rfl
      have hr3 := readCell_append_length junk P (some u :: (us.map some ++ none :: rest)) 2
      have hr4 : readCell junk (some u :: (us.map some ++ none :: rest)) 2
          = (us.map some ++ none :: rest).getD 1 junk := rfl
      have hs : (P ++ some u :: (us.map some ++ none :: rest)).set P.length
            ((us.map some ++ none :: rest).getD 1 junk)
          = (P ++ [(us.map some ++ none :: rest).getD 1 junk])
            ++ (us.map some ++ none :: rest) := by
        rw [List.set_append_right _ _ (le_refl _)]
        simp
      have e2 : P.length + 1
          = (P ++ [(us.map some ++ none :: rest).getD 1 junk]).length := by simp
      simp only [List.map_cons, List.cons_append, shiftArgs, hr, hr2, hr3, hr4, hs, shiftTail]
      rw [e2, ih _ fuel (by simp only [List.length_cons] at hf; omega)]
      simp

theorem shiftTail_pair (junk : Cell) (rest : List Cell) :
    ∀ (ws : List CStr) (a b : CStr),
      ∃ rest', shiftTail junk (some a :: some b :: (ws.map some ++ none :: rest))
        = ws.map some ++ none :: rest' := by
  intro ws
  induction ws with
  | nil =>
    intro a b
    exact ⟨shiftTail junk (some b :: none :: rest), by simp [shiftTail]⟩
  | cons w ws ih =>
    intro a b
    obtain ⟨rest', h⟩ := ih b w
    refine ⟨rest', ?_⟩
    have : shiftTail junk (some a :: some b :: ((w :: ws).map some ++ none :: rest))
        = some w :: shiftTail junk (some b :: some w :: (ws.map some ++ none :: rest)) := by
      simp [shiftTail]
    rw [this, h]
    simp

theorem firstIndex_none (op : CStr) : ∀ (ts : List CStr), firstIndex op ts = none →
    removeFirstPair op ts = ts ∧ redirectTarget op ts = none := by
  intro ts
  induction ts with
  | nil => intro _; exact ⟨rfl, rfl⟩
  | cons t ts ih =>
    intro h
    by_cases e : t = op
    · simp [firstIndex, e] at h
    · simp only [firstIndex, e, if_false, Option.map_eq_none'] at h
      obtain ⟨h1, h2⟩ := ih h
      simp [removeFirstPair, redirectTarget, e, h1, h2]

theorem firstIndex_some (op : CStr) : ∀ (ts : List CStr) (i : Nat), firstIndex op ts = some i →
    ∃ pre post, ts = pre ++ op :: post ∧ pre.length = i
      ∧ removeFirstPair op ts = pre ++ post.tail ∧ redirectTarget op ts = some post.head? := by
  intro ts
  induction ts with
  | nil => intro i h; simp [firstIndex] at h
  | cons t ts ih =>
    intro i h
    by_cases e : t = op
    · simp only [firstIndex, e, if_true, Option.some.injEq] at h
      exact ⟨[], ts, by simp [e], by simp [h], by simp [removeFirstPair, e],
        by simp [redirectTarget, e]⟩
    · simp only [firstIndex, e, if_false, Option.map_eq_some'] at h
      obtain ⟨k, hk, hi⟩ := h
      obtain ⟨pre, post, h1, h2, h3, h4⟩ := ih k hk
      refine ⟨t :: pre, post, by simp [h1], by simp [h2, hi], ?_, ?_⟩
      · simp [removeFirstPair, e, h3]
      · simp [redirectTarget, e, h4]

theorem redirect_spec (junk : Cell) (op : CStr) (canOpen : CStr → Bool) (toks : List CStr)
    (rest : List Cell) :
    ∃ rest', redirect junk op canOpen (toks.map some ++ none :: rest)
      = if redirectOk op canOpen toks
        then some ((removeFirstPair op toks).map some ++ none :: rest') else none := by
  have hfind := findOperator_spec junk op rest toks [] ((toks.map some ++ none :: rest).length + 1)
    (by simp; omega)
  simp only [List.nil_append, List.length_nil, Nat.add_zero] at hfind
  unfold redirect redirectOk
  rw [hfind]
  cases hi : firstIndex op toks with
  | none =>
    obtain ⟨h1, h2⟩ := firstIndex_none op toks hi
    exact ⟨rest, by simp [h1, h2]⟩
  | some i =>
    obtain ⟨pre, post, h1, h2, h3, h4⟩ := firstIndex_some op toks i hi
    have hbuf : toks.map some ++ none :: rest
        = pre.map some ++ ((op :: post).map some ++ none :: rest) := by simp [h1]
    have hlen : i = (pre.map some).length := by simp [h2]
    have hread : readCell junk (toks.map some ++ none :: rest) (i + 1) = post.head? := by
      rw [hbuf, hlen, readCell_append_length]
      cases post <;> rfl
    simp only [Option.map_some', h4, hread]
    cases post with
    | nil => exact ⟨rest, by simp [openFile]⟩
    | cons p ws =>
      have hshift := shiftArgs_spec junk rest (op :: p :: ws) (pre.map some)
        ((toks.map some ++ none :: rest).length + 1) (by simp [h1]; omega)
      obtain ⟨rest', hr⟩ := shiftTail_pair junk rest ws op p
      refine ⟨rest', ?_⟩
      rw [← hlen, ← hbuf] at hshift
      simp only [List.map_cons, List.cons_append] at hshift
      rw [hshift, hr, h3]
      simp [openFile]

theorem spaceRuns_mem : ∀ (n : Nat) (s : CStr), s.length ≤ n →
    ∀ t ∈ spaceRuns s, t ≠ [] ∧ ' ' ∉ t := by
  intro n
  induction n with
  | zero =>
    intro s hs t ht
    have : s = [] := List.length_eq_zero.mp (by omega)
    subst this
    simp [spaceRuns_nil] at ht
  | succ n ih =>
    intro s hs t ht
    cases hst : strtok s with
    | none => rw [strtok_none s hst] at ht; simp at ht
    | some p =>
      obtain ⟨tok, rest⟩ := p
      obtain ⟨h1, h2, h3, h4⟩ := strtok_some s tok rest hst
      rw [h1] at ht
      rcases List.mem_cons.mp ht with e | hm
      · subst e; exact ⟨h3, h4⟩
      · exact ih rest (by omega) t hm

theorem redirectOk_of_operandPresent (op : CStr) (canOpen : CStr → Bool)
    (hall : ∀ p, canOpen p = true) :
    ∀ toks : List CStr, operandPresent op toks = true → redirectOk op canOpen toks = true := by
  intro toks
  unfold redirectOk
  induction toks with
  | nil => intro _; rfl
  | cons t ts ih =>
    intro h
    by_cases e : t = op
    · cases ts with
      | nil => simp [operandPresent, e] at h
      | cons p ws => simp [redirectTarget, e, openFile, hall]
    · simp only [operandPresent, e, if_false] at h
      simpa [redirectTarget, e] using ih h

theorem executeCommand_child_spec (env : Env) (toks : List CStr) (rest : List Cell) :
    executeCommand_child env (toks.map some ++ none :: rest)
      = if redirectOk "<".toList env.readable toks
            && redirectOk ">".toList env.writable (removeFirstPair "<".toList toks)
        then .execvp (removeFirstPair ">".toList (removeFirstPair "<".toList toks))
        else .exited 1 := by
  unfold executeCommand_child
  obtain ⟨r1, h1⟩ := redirect_spec env.junk "<".toList env.readable toks rest
  by_cases c1 : redirectOk "<".toList env.readable toks = true
  · rw [if_pos c1] at h1
    obtain ⟨r2, h2⟩ := redirect_spec env.junk ">".toList env.writable
      (removeFirstPair "<".toList toks) r1
    rw [h1]
    dsimp only
    by_cases c2 : redirectOk ">".toList env.writable (removeFirstPair "<".toList toks) = true
    · rw [if_pos c2] at h2
      rw [h2, c1, c2]
      dsimp only
      rw [argv_map_some]
      rfl
    · rw [if_neg c2] at h2
      have c2f := (Bool.not_eq_true _).mp c2
      rw [h2, c1, c2f]
      rfl
  · rw [if_neg c1] at h1
    have c1f := (Bool.not_eq_true _).mp c1
    rw [h1, c1f]
    rfl

/-- C3: for every line, `tokenizeCommand` stores in the 512-cell block the
maximal runs of non-space characters of the line, in order and limited to the
first `MAX_ARGUMENTS - 1 = 511`, and a NULL right behind them; every token is
non-empty and holds no space. -/
theorem tokenizeCommand_space_runs (heap : List Cell) (line : CStr)
    (hheap : heap.length = MAX_ARGUMENTS) :
    argv (tokenizeCommand heap line) = (spaceRuns line).take (MAX_ARGUMENTS - 1)
    ∧ MAX_ARGUMENTS - 1 = 511
    ∧ (tokenizeCommand heap line)[(argv (tokenizeCommand heap line)).length]? = some none
    ∧ ∀ t ∈ argv (tokenizeCommand heap line), t ≠ [] ∧ ' ' ∉ t := by
  obtain ⟨rest, h⟩ := tokenizeCommand_buffer heap line hheap
  have ha : argv (tokenizeCommand heap line) = (spaceRuns line).take (MAX_ARGUMENTS - 1) := by
    rw [h, argv_map_some]
  refine ⟨ha, rfl, ?_, ?_⟩
  · rw [ha, h]
    have : ((spaceRuns line).take (MAX_ARGUMENTS - 1)).length
        = (((spaceRuns line).take (MAX_ARGUMENTS - 1)).map some).length := by simp
    rw [this, List.getElem?_append_right (le_refl _)]
    simp
  · intro t ht
    rw [ha] at ht
    exact spaceRuns_mem line.length line (le_refl _) t (List.mem_of_mem_take ht)

theorem tokenizeCommand_space_runs_witness :
    argv (tokenizeCommand sampleEnv.heap "  ls  -l   foo ".toList)
      = ["ls".toList, "-l".toList, "foo".toList] := by
  have h := (tokenizeCommand_space_runs sampleEnv.heap "  ls  -l   foo ".toList
    (List.length_replicate _ _)).1
  rw [h]
  decide

/-- C1: whenever the child branch of `executeCommand` reaches `execvp`, the
vector it passes is the original one without the first `<` and its path and
then without the first `>` and its path, the other tokens in their order (a
second `<` or `>` stays); and when each operator found has a path behind it
and the files open, `execvp` is reached with that vector. -/
theorem executeCommand_passes_reduced_vector (env : Env) (toks : List CStr)
    (rest : List Cell) :
    (∀ v, executeCommand_child env (toks.map some ++ none :: rest) = .execvp v →
        v = removeFirstPair ">".toList (removeFirstPair "<".toList toks))
    ∧ (operandPresent "<".toList toks = true →
       operandPresent ">".toList (removeFirstPair "<".toList toks) = true →
       (∀ p, env.readable p = true) → (∀ p, env.writable p = true) →
       executeCommand_child env (toks.map some ++ none :: rest)
         = .execvp (removeFirstPair ">".toList (removeFirstPair "<".toList toks))) := by
  rw [executeCommand_child_spec]
  constructor
  · intro v hv
    split at hv
    · injection hv with e; exact e.symm
    · cases hv
  · intro h1 h2 hr hw
    rw [redirectOk_of_operandPresent _ _ hr _ h1, redirectOk_of_operandPresent _ _ hw _ h2]
    rfl

theorem executeCommand_passes_reduced_vector_witness :
    executeCommand_child sampleEnv
        (["wc", "<", "in", "-l", ">", "out", "<", "x", ">", "y"].map (fun s => some s.toList)
          ++ none :: [some "junk".toList])
      = .execvp ["wc".toList, "-l".toList, "<".toList, "x".toList, ">".toList, "y".toList] :=
  (executeCommand_passes_reduced_vector sampleEnv
    (["wc", "<", "in", "-l", ">", "out", "<", "x", ">", "y"].map String.toList)
    [some "junk".toList]).2 (by decide) (by decide) (fun _ => rfl) (fun _ => rfl)

/-! ## Status tracking -/

theorem foregroundWait_fst (st : ShellState) (childPid status : Int) :
    (foregroundWait st childPid status).1
      = { st with
          lastForegroundStatus :=
            if exitedWithOne status then st.lastForegroundStatus else status,
          foregroundChildPid := -1 } := by
  unfold foregroundWait exitedWithOne
  cases h : (WIFEXITED status && WEXITSTATUS status == 1) <;> simp

theorem waitAll_append (st : ShellState) (l : List (Int × Int)) (c : Int × Int) :
    waitAll st (l ++ [c]) = (foregroundWait (waitAll st l) c.1 c.2).1 := by
  simp [waitAll, List.foldl_append]

theorem waitAll_lastRecorded (st : ShellState) (children : List (Int × Int)) :
    (waitAll st children).lastForegroundStatus
      = lastRecorded st.lastForegroundStatus (children.map Prod.snd) := by
  induction children using List.reverseRecOn with
  | nil => rfl
  | append_singleton l c ih =>
    rw [waitAll_append, foregroundWait_fst]
    simp only [List.map_append, List.map_cons, List.map_nil, lastRecorded,
      List.reverse_append, List.reverse_cons, List.reverse_nil, List.nil_append,
      List.singleton_append, List.find?_cons]
    cases h : exitedWithOne c.2
    · simp
    · simp only [if_true, Bool.not_true, ih, lastRecorded]

/-- The wait block taken alone (lines 300-314 and 397-411), on any raw wait
status handed to it: a normal exit with code exactly 1 prints "exit value 1"
and leaves `lastForegroundStatus` unchanged, every other status is stored in
`lastForegroundStatus`, and the tracked pid is -1 afterwards; over any
sequence of such waits `lastForegroundStatus` is the most recent status that
was not a code-1 exit. -/
theorem foregroundWait_status_rule (st : ShellState) (childPid status : Int)
    (children : List (Int × Int)) :
    (WIFEXITED status = true ∧ WEXITSTATUS status = 1 →
        (foregroundWait st childPid status).2 = "exit value 1\n"
        ∧ (foregroundWait st childPid status).1.lastForegroundStatus = st.lastForegroundStatus
        ∧ statusBuiltin (foregroundWait st childPid status).1 = statusBuiltin st)
    ∧ (¬ (WIFEXITED status = true ∧ WEXITSTATUS status = 1) →
        (foregroundWait st childPid status).1.lastForegroundStatus = status)
    ∧ (foregroundWait st childPid status).1.foregroundChildPid = -1
    ∧ (waitAll st children).lastForegroundStatus
        = lastRecorded st.lastForegroundStatus (children.map Prod.snd) := by
  refine ⟨?_, ?_, ?_, waitAll_lastRecorded st children⟩
  · intro h
    have e : exitedWithOne status = true := by simp [exitedWithOne, h.1, h.2]
    refine ⟨?_, ?_, ?_⟩
    · simp [foregroundWait, h.1, h.2]
    · rw [foregroundWait_fst, e]; rfl
    · rw [foregroundWait_fst, e]; rfl
  · intro h
    have e : exitedWithOne status = false := by
      simp only [exitedWithOne, Bool.and_eq_false_iff, beq_eq_false_iff_ne]
      by_cases w : WIFEXITED status = true
      · right; intro x; exact h ⟨w, x⟩
      · left; simpa using w
    rw [foregroundWait_fst, e]; rfl
  · rw [foregroundWait_fst]

theorem foregroundWait_status_rule_witness :
    (foregroundWait startUp 100 (W_EXITCODE 1 0)).2 = "exit value 1\n"
    ∧ (foregroundWait startUp 100 (W_EXITCODE 1 0)).1.lastForegroundStatus = 0
    ∧ (foregroundWait startUp 100 (W_EXITCODE 3 0)).1.lastForegroundStatus = W_EXITCODE 3 0 :=
  ⟨((foregroundWait_status_rule startUp 100 (W_EXITCODE 1 0) []).1 (by decide)).1,
   ((foregroundWait_status_rule startUp 100 (W_EXITCODE 1 0) []).1 (by decide)).2.1,
   (foregroundWait_status_rule startUp 100 (W_EXITCODE 3 0) []).2.1 (by decide)⟩

/-! ## The text of a status -/

theorem fmtD_natCast (n : Nat) : fmtD (n : Int) = toString n := rfl

theorem handleStatus_exit (c : Nat) (hc : c < 256) :
    handleStatus (W_EXITCODE c 0) = "exit value " ++ toString c ++ "\n" := by
  have h1 : WIFEXITED (W_EXITCODE c 0) = true := by
    simp only [WIFEXITED, WTERMSIG, W_EXITCODE, beq_iff_eq]; omega
  have h2 : WEXITSTATUS (W_EXITCODE c 0) = (c : Int) := by
    simp only [WEXITSTATUS, W_EXITCODE]; omega
  simp only [handleStatus, h1, h2, if_true, fmtD_natCast]

theorem handleStatus_signal (s : Nat) (core : Bool) (h0 : 0 < s) (h1 : s < 127) :
    handleStatus (W_EXITCODE 0 ((s : Int) + if core then 128 else 0))
      = "terminated by signal " ++ toString s ++ "\n" := by
  have e1 : WIFEXITED (W_EXITCODE 0 ((s : Int) + if core then 128 else 0)) = false := by
    simp only [WIFEXITED, WTERMSIG, W_EXITCODE, beq_eq_false_iff_ne]
    cases core <;> simp <;> omega
  have e2 : WIFSIGNALED (W_EXITCODE 0 ((s : Int) + if core then 128 else 0)) = true := by
    simp only [WIFSIGNALED, W_EXITCODE, decide_eq_true_eq]
    cases core <;> simp <;> split <;> omega
  have e3 : WTERMSIG (W_EXITCODE 0 ((s : Int) + if core then 128 else 0)) = (s : Int) := by
    simp only [WTERMSIG, W_EXITCODE]
    cases core <;> simp <;> omega
  simp only [handleStatus, e1, e2, e3, if_true, fmtD_natCast]
  rfl

theorem expand_pid_no_marker (command : CStr) (pid : Int)
    (hpid : (fmtD pid).length < 10) (h : strstr "$$".toList command = none) :
    expand_pid command pid = some command := by
  have hs : store 10 (fmtD pid).toList = some (fmtD pid).toList := by
    unfold store
    rw [if_pos]
    show (fmtD pid).length + 1 ≤ 10
    omega
  unfold expand_pid
  rw [hs, h]
  simp [store]

theorem mainIteration_status (env : Env) (st : ShellState)
    (hheap : env.heap.length = MAX_ARGUMENTS) (hpid : (fmtD env.shellPID).length < 10) :
    mainIteration env st "status".toList
      = .next { st with background := 0 } (statusBuiltin st) "" .status := by
  obtain ⟨rest, h⟩ := tokenizeCommand_buffer env.heap "status".toList hheap
  have hr : (spaceRuns "status".toList).take (MAX_ARGUMENTS - 1) = ["status".toList] := by
    decide
  rw [hr] at h
  have he : expand_pid (afterStrtok "status".toList) env.shellPID
      = some (afterStrtok "status".toList) :=
    expand_pid_no_marker _ _ hpid (by decide)
  have hb : handleBlankAndComment "status".toList = false := by decide
  unfold mainIteration
  rw [hb, h, he]
  simp [checkBackground, readCell, countArgs, statusBuiltin]

/-- C7: for every exit code `c` in 0..255 `handleStatus` prints
"exit value c" and a newline for the wait status of a normal exit with code
`c`; for every signal number `s` it prints "terminated by signal s" and a
newline for the wait status of a termination by `s`; and the builtin `status`
run in the initial state prints "exit value 0" and a newline. -/
theorem handleStatus_text (c s : Nat) (core : Bool) (env : Env)
    (hc : c < 256) (hs0 : 0 < s) (hs1 : s < 127)
    (hheap : env.heap.length = MAX_ARGUMENTS) (hpid : (fmtD env.shellPID).length < 10) :
    handleStatus (W_EXITCODE c 0) = "exit value " ++ toString c ++ "\n"
    ∧ handleStatus (W_EXITCODE 0 ((s : Int) + if core then 128 else 0))
        = "terminated by signal " ++ toString s ++ "\n"
    ∧ statusBuiltin startUp = "exit value 0\n"
    ∧ mainIteration env startUp "status".toList = .next startUp "exit value 0\n" "" .status :=
  ⟨handleStatus_exit c hc, handleStatus_signal s core hs0 hs1, rfl,
    mainIteration_status env startUp hheap hpid⟩

theorem handleStatus_text_witness :
    handleStatus (W_EXITCODE 3 0) = "exit value 3\n"
    ∧ handleStatus (W_EXITCODE 0 (9 + 128)) = "terminated by signal 9\n"
    ∧ mainIteration sampleEnv startUp "status".toList = .next startUp "exit value 0\n" "" .status :=
  have h := handleStatus_text 3 9 true sampleEnv (by decide) (by decide) (by decide)
    (List.length_replicate _ _) (by decide)
  ⟨h.1, h.2.1, h.2.2.2⟩

/-! ## `expand_pid` -/

theorem strstr_some (needle : CStr) : ∀ (hay : CStr) (pos : Nat),
    strstr needle hay = some pos →
      needle <+: hay.drop pos ∧ pos ≤ hay.length ∧ ∀ k < pos, ¬ needle <+: hay.drop k := by
  intro hay
  induction hay with
  | nil =>
    intro pos h
    simp only [strstr] at h
    split at h
    · next e =>
      injection h with h
      subst h
      subst e
      simp
    · cases h
  | cons c cs ih =>
    intro pos h
    simp only [strstr] at h
    split at h
    · next e =>
      injection h with h
      subst h
      simpa using e
    · next e =>
      simp only [Option.map_eq_some'] at h
      obtain ⟨p, hp, hpos⟩ := h
      obtain ⟨h1, h2, h3⟩ := ih p hp
      subst hpos
      refine ⟨by simpa using h1, by simp only [List.length_cons]; omega, ?_⟩
      intro k hk
      cases k with
      | zero => simpa using e
      | succ k => simpa using h3 k (by omega)

theorem strstr_none (needle : CStr) : ∀ (hay : CStr), strstr needle hay = none →
    ∀ k, ¬ needle <+: hay.drop k := by
  intro hay
  induction hay with
  | nil =>
    intro h k
    simp only [strstr] at h
    split at h
    · cases h
    · next e => simpa using e
  | cons c cs ih =>
    intro h k
    simp only [strstr] at h
    split at h
    · cases h
    · next e =>
      simp only [Option.map_eq_none'] at h
      cases k with
      | zero => simpa using e
      | succ k => simpa using ih h k

theorem strstr_marker_bound (line : CStr) (pos : Nat)
    (h : strstr "$$".toList line = some pos) : pos + 2 ≤ line.length := by
  obtain ⟨h1, h2, -⟩ := strstr_some _ line pos h
  have := h1.length_le
  simp only [List.length_drop] at this
  have e : "$$".toList.length = 2 := rfl
  omega

/-- Whenever `expand_pid` returns a string, it is the line with its leftmost
marker replaced by the decimal process id. -/
theorem expand_pid_sound (line : CStr) (pid : Int) (r : CStr)
    (h : expand_pid line pid = some r) : r = expandFirst line pid := by
  unfold expand_pid store at h
  unfold expandFirst
  split at h
  · simp only [Option.bind_eq_bind, Option.some_bind] at h
    cases hs : strstr "$$".toList line with
    | none =>
      rw [hs] at h
      simp only at h
      split at h
      · injection h with h; exact h.symm
      · cases h
    | some pos =>
      rw [hs] at h
      simp only at h
      split at h
      · simp only [Option.some_bind] at h
        split at h
        · simp only [Option.some_bind] at h
          split at h
          · injection h with h; exact h.symm
          · cases h
        · cases h
      · cases h
  · cases h

/-- A line with a marker and a process id of more than two decimal characters
make `expand_pid` store behind the end of the result block. -/
theorem expand_pid_overflow (line : CStr) (pid : Int) (pos : Nat)
    (hm : strstr "$$".toList line = some pos) (hp : 2 < (fmtD pid).length) :
    expand_pid line pid = none := by
  cases h : expand_pid line pid with
  | none => rfl
  | some r =>
    exfalso
    have hb := strstr_marker_bound line pos hm
    unfold expand_pid store at h
    rw [hm] at h
    have hl : (fmtD pid).toList.length = (fmtD pid).length := rfl
    split at h
    · simp only [Option.bind_eq_bind, Option.some_bind] at h
      split at h
      · simp only [Option.some_bind] at h
        split at h
        · simp only [Option.some_bind] at h
          split at h
          · next h3 =>
            simp only [List.length_append, List.length_take, List.length_drop] at h3
            omega
          · cases h
        · cases h
      · cases h
    · cases h

/-- A process id of at most two decimal characters fits. -/
theorem expand_pid_fits (line : CStr) (pid : Int) (hp : (fmtD pid).length ≤ 2) :
    expand_pid line pid = some (expandFirst line pid) := by
  have hl : (fmtD pid).toList.length = (fmtD pid).length := rfl
  have hs : store 10 (fmtD pid).toList = some (fmtD pid).toList := by
    unfold store
    rw [if_pos]
    omega
  unfold expand_pid expandFirst
  rw [hs]
  cases hm : strstr "$$".toList line with
  | none => simp [store]
  | some pos =>
    have hb := strstr_marker_bound line pos hm
    have h0 : store (line.length + 1) (line.take pos) = some (line.take pos) := by
      unfold store
      rw [if_pos]
      simp only [List.length_take]
      omega
    have h1 : store (line.length + 1) (line.take pos ++ (fmtD pid).toList)
        = some (line.take pos ++ (fmtD pid).toList) := by
      unfold store
      rw [if_pos]
      simp only [List.length_append, List.length_take]
      omega
    have h2 : store (line.length + 1)
          (line.take pos ++ (fmtD pid).toList ++ line.drop (pos + 2))
        = some (line.take pos ++ (fmtD pid).toList ++ line.drop (pos + 2)) := by
      unfold store
      rw [if_pos]
      simp only [List.length_append, List.length_take, List.length_drop]
      omega
    simp only [Option.bind_eq_bind, Option.some_bind, h0, h1, h2]

/-! ## The terminate signal -/

theorem foregroundWait_backgroundFlag (st : ShellState) (childPid status : Int) :
    (foregroundWait st childPid status).1.backgroundFlag = st.backgroundFlag := by
  rw [foregroundWait_fst]

theorem mainIteration_backgroundFlag (env : Env) (line : CStr) (st st1 : ShellState)
    (out childOut : String) (d : Dispatch)
    (h : mainIteration env st line = .next st1 out childOut d) :
    st1.backgroundFlag = st.backgroundFlag := by
  unfold mainIteration at h
  split at h
  · cases h
  · split at h
    · cases h
    · dsimp only at h
      split at h
      · cases h
      · split at h
        · cases h
        · split at h
          · injection h with h1
            rw [← h1]
          · split at h
            · injection h with h1
              rw [← h1]
            · injection h with h1
              rw [← h1]
              split
              · exact foregroundWait_backgroundFlag _ _ _
              · rfl

theorem sigtstpHandler_backgroundFlag (self : Int) (reaped : List (Int × Int)) (signo : Int)
    (st : ShellState) :
    (sigtstpHandler self reaped signo st).1.backgroundFlag = st.backgroundFlag := by
  unfold sigtstpHandler
  split
  · split
    · dsimp only
      split <;> rfl
    · rfl
  · rfl

theorem sigtermHandler_backgroundFlag (signo : Int) (st : ShellState) :
    (sigtermHandler signo st).1.backgroundFlag = st.backgroundFlag := by
  unfold sigtermHandler
  split
  · dsimp only
    split <;> rfl
  · rfl

theorem reachable_backgroundFlag (st : ShellState) (h : Reachable st) :
    st.backgroundFlag = 0 := by
  induction h with
  | start => rfl
  | command env line _ hm ih => rw [mainIteration_backgroundFlag _ _ _ _ _ _ _ hm, ih]
  | waiting childPid background _ ih => exact ih
  | sigint self signo _ hs ih =>
    unfold sigintHandler at hs
    split at hs
    · split at hs
      · cases hs
      · injection hs with e; rw [← e, ih]
    · injection hs with e; rw [← e, ih]
  | sigtstp self reaped signo _ ih => rw [sigtstpHandler_backgroundFlag, ih]
  | sigterm signo _ ih => rw [sigtermHandler_backgroundFlag, ih]

theorem sigtermHandler_of_flag_zero (signo : Int) (st : ShellState)
    (h : st.backgroundFlag = 0) : sigtermHandler signo st = (st, false) := by
  unfold sigtermHandler
  split
  · dsimp only
    rw [if_neg]
    intro hh
    exact hh.1 h
  · rfl

/-- C8: in every state the interpreter reaches from its start-up, where
`setupSignalHandlers(0)` has stored 0 in `backgroundFlag`, delivering the
terminate signal any number of times performs no broadcast at all and leaves
the guard `backgroundTerminationInitiated` as it was. -/
theorem sigterm_never_broadcasts (st : ShellState) (h : Reachable st) (n : Nat) :
    deliverSigterm n st = (st, 0) := by
  have hz := sigtermHandler_of_flag_zero SIGTERM st (reachable_backgroundFlag st h)
  induction n with
  | zero => rfl
  | succ n ih => simp [deliverSigterm, hz, ih]

theorem sigterm_never_broadcasts_witness :
    deliverSigterm 1 startUp = (startUp, 0) ∧ deliverSigterm 3 startUp = (startUp, 0) :=
  ⟨sigterm_never_broadcasts startUp Reachable.start 1,
   sigterm_never_broadcasts startUp Reachable.start 3⟩

/-! ## The status the interpreter records -/

/-- The text of the builtin `status` is the text of the recorded status. -/
theorem statusBuiltin_recorded (st : ShellState) (h : st.lastForegroundStatus ≠ -1) :
    statusBuiltin st = handleStatus st.lastForegroundStatus := by
  unfold statusBuiltin
  rw [if_neg h]

theorem mainIteration_lastForegroundStatus (env : Env) (line : CStr) (st st1 : ShellState)
    (out childOut : String) (d : Dispatch)
    (h : mainIteration env st line = .next st1 out childOut d)
    (h0 : st.lastForegroundStatus = 0) : st1.lastForegroundStatus = 0 := by
  unfold mainIteration at h
  split at h
  · cases h
  · split at h
    · cases h
    · dsimp only at h
      split at h
      · cases h
      · split at h
        · cases h
        · split at h
          · injection h with h1
            rw [← h1]
            exact h0
          · split at h
            · injection h with h1
              rw [← h1]
              exact h0
            · injection h with h1
              rw [← h1]
              split
              · rw [foregroundWait_fst]
                rfl
              · exact h0

/-- In every state the interpreter reaches, `lastForegroundStatus` is 0 and the
builtin `status` prints "exit value 0": the child the interpreter waits for
is the one of line 386, which ends through the `exit(0)` of line 394 whatever
the command did. -/
theorem reachable_lastForegroundStatus (st : ShellState) (h : Reachable st) :
    st.lastForegroundStatus = 0 ∧ statusBuiltin st = "exit value 0\n" := by
  have h0 : st.lastForegroundStatus = 0 := by
    induction h with
    | start => rfl
    | command env line _ hm ih => exact mainIteration_lastForegroundStatus _ _ _ _ _ _ _ hm ih
    | waiting childPid background _ ih => exact ih
    | sigint self signo _ hs ih =>
      unfold sigintHandler at hs
      split at hs
      · split at hs
        · cases hs
        · injection hs with e; rw [← e, ih]
      · injection hs with e; rw [← e, ih]
    | sigtstp self reaped signo _ ih =>
      rw [← ih]
      unfold sigtstpHandler
      split
      · split
        · dsimp only
          split <;> rfl
        · rfl
      · rfl
    | sigterm signo _ ih =>
      rw [← ih]
      unfold sigtermHandler
      split
      · dsimp only
        split <;> rfl
      · rfl
  refine ⟨h0, ?_⟩
  rw [statusBuiltin_recorded st (by rw [h0]; decide), h0]
  rfl

/-! ## What the loop dispatches -/

theorem countArgs_spec (junk : Cell) (rest : List Cell) :
    ∀ (ts : List CStr) (P : List Cell) (fuel : Nat), ts.length < fuel →
      countArgs junk (P ++ (ts.map some ++ none :: rest)) fuel P.length
        = P.length + ts.length := by
  intro ts
  induction ts with
  | nil =>
    intro P fuel hf
    cases fuel with
    | zero => omega
    | succ fuel =>
      have hr := readCell_append_length junk P (none :: rest) 0
      simp only [Nat.add_zero] at hr
      have hr2 : readCell junk (none :: rest) 0 = none := rfl
      simp only [List.map_nil, List.nil_append, countArgs, hr, hr2, List.length_nil, Nat.add_zero]
  | cons t ts ih =>
    intro P fuel hf
    cases fuel with
    | zero => omega
    | succ fuel =>
      have hr := readCell_append_length junk P (some t :: (ts.map some ++ none :: rest)) 0
      simp only [Nat.add_zero] at hr
      have hr2 : readCell junk (some t :: (ts.map some ++ none :: rest)) 0 = some t := rfl
      have e : P ++ some t :: (ts.map some ++ none :: rest)
          = (P ++ [some t]) ++ (ts.map some ++ none :: rest) := by simp
      have e2 : P.length + 1 = (P ++ [some t]).length := by simp
      simp only [List.map_cons, List.cons_append, countArgs, hr, hr2]
      rw [e, e2, ih (P ++ [some t]) fuel (by simp only [List.length_cons] at hf; omega)]
      simp only [List.length_append, List.length_cons, List.length_nil]
      omega

theorem checkBackground_nil (junk : Cell) (st : ShellState) (rest : List Cell) :
    checkBackground junk st (none :: rest) = (st.background, none :: rest) := rfl

theorem checkBackground_concat (junk : Cell) (st : ShellState) (init : List CStr)
    (last : CStr) (rest : List Cell) :
    checkBackground junk st ((init ++ [last]).map some ++ none :: rest)
      = if last = "&".toList then (1, init.map some ++ none :: none :: rest)
        else (0, (init ++ [last]).map some ++ none :: rest) := by
  have hc : countArgs junk ((init ++ [last]).map some ++ none :: rest)
      (((init ++ [last]).map some ++ none :: rest).length + 1) 0 = init.length + 1 := by
    have := countArgs_spec junk rest (init ++ [last]) []
      (((init ++ [last]).map some ++ none :: rest).length + 1) (by simp)
    simp only [List.nil_append, List.length_nil, Nat.zero_add] at this
    rw [this]
    simp
  have h0 : ∃ a, readCell junk ((init ++ [last]).map some ++ none :: rest) 0 = some a := by
    cases init with
    | nil => exact ⟨last, rfl⟩
    | cons a as => exact ⟨a, rfl⟩
  obtain ⟨a, ha⟩ := h0
  have hbuf : (init ++ [last]).map some ++ none :: rest
      = init.map some ++ (some last :: none :: rest) := by simp
  have hlen : init.length = (init.map some).length := by simp
  have hread : readCell junk ((init ++ [last]).map some ++ none :: rest) init.length
      = some last := by
    have := readCell_append_length junk (init.map some) (some last :: none :: rest) 0
    rw [hbuf, hlen]
    simpa using this
  have hset : ((init ++ [last]).map some ++ none :: rest).set init.length none
      = init.map some ++ none :: none :: rest := by
    rw [hbuf, hlen, List.set_append_right _ _ (le_refl _)]
    simp
  unfold checkBackground
  rw [ha]
  dsimp only
  rw [hc, Nat.add_sub_cancel, hread, hset]
  by_cases e : last = "&".toList
  · rw [if_pos ⟨by omega, by rw [e]⟩, if_pos e]
  · rw [if_neg (fun x => e (Option.some.inj x.2)), if_neg e]

theorem mainIteration_launch_inv (env : Env) (st st1 : ShellState) (line : CStr)
    (out childOut : String) (v : List CStr) (bg : Int)
    (h : mainIteration env st line = .next st1 out childOut (.launch v bg)) :
    readCell env.junk (checkBackground env.junk st (tokenizeCommand env.heap line)).2 0 ≠ none
    ∧ v = argv (checkBackground env.junk st (tokenizeCommand env.heap line)).2
    ∧ bg = (checkBackground env.junk st (tokenizeCommand env.heap line)).1 := by
  unfold mainIteration at h
  split at h
  · cases h
  · split at h
    · cases h
    · dsimp only at h
      split at h
      · cases h
      · next a0 ha =>
        refine ⟨by rw [ha]; exact Option.some_ne_none _, ?_⟩
        split at h
        · cases h
        · split at h
          · injection h with _ _ _ h4
            cases h4
          · split at h
            · injection h with _ _ _ h4
              cases h4
            · injection h with _ _ _ h4
              injection h4 with h5 h6
              exact ⟨h5.symm, h6.symm⟩

/-- Whatever the state and the process id, a command the loop launches is the
split of the line as it was typed: with a trailing `&` it is launched with
`background = 1` and without the `&`, otherwise with `background = 0`. -/
theorem mainIteration_launch_raw (env : Env) (st st1 : ShellState) (line : CStr)
    (out childOut : String) (v : List CStr) (bg : Int)
    (hheap : env.heap.length = MAX_ARGUMENTS)
    (h : mainIteration env st line = .next st1 out childOut (.launch v bg)) :
    ((spaceRuns line).take (MAX_ARGUMENTS - 1) = v ++ ["&".toList] ∧ bg = 1)
    ∨ ((spaceRuns line).take (MAX_ARGUMENTS - 1) = v ∧ v.getLast? ≠ some "&".toList ∧ bg = 0) := by
  obtain ⟨h0, hv, hbg⟩ := mainIteration_launch_inv env st st1 line out childOut v bg h
  obtain ⟨rest, hb⟩ := tokenizeCommand_buffer env.heap line hheap
  rw [hb] at h0 hv hbg
  rcases List.eq_nil_or_concat ((spaceRuns line).take (MAX_ARGUMENTS - 1)) with e | ⟨init, last, e⟩
  · rw [e] at h0
    exact absurd rfl h0
  · rw [e] at hv hbg ⊢
    rw [List.concat_eq_append] at hv hbg ⊢
    rw [checkBackground_concat] at hv hbg
    by_cases c : last = "&".toList
    · left
      rw [if_pos c] at hv hbg
      rw [hv, hbg, argv_map_some, c]
      exact ⟨rfl, rfl⟩
    · right
      rw [if_neg c] at hv hbg
      have hv2 : v = init ++ [last] := by rw [hv]; exact argv_map_some _ _
      rw [hv2, hbg]
      refine ⟨rfl, ?_, rfl⟩
      rw [List.getLast?_concat]
      intro x
      injection x with x
      exact c x


/-! ## Lines without a command token -/

/-- A line that is neither empty nor a comment and has no token, or the single
token `&`, makes the loop pass NULL as `args[0]` to `strcmp`. -/
theorem mainIteration_no_token (env : Env) (st : ShellState) (line : CStr)
    (hheap : env.heap.length = MAX_ARGUMENTS)
    (hb : handleBlankAndComment line = false)
    (he : expand_pid (afterStrtok line) env.shellPID ≠ none)
    (ht : spaceRuns line = [] ∨ spaceRuns line = ["&".toList]) :
    mainIteration env st line = .nullArgv0 := by
  obtain ⟨rest, h⟩ := tokenizeCommand_buffer env.heap line hheap
  unfold mainIteration
  rw [hb, h]
  cases hx : expand_pid (afterStrtok line) env.shellPID with
  | none => exact absurd hx he
  | some r =>
    rcases ht with ht | ht
    · rw [ht]
      simp [checkBackground, readCell]
    · rw [ht]
      simp [checkBackground, readCell, countArgs, MAX_ARGUMENTS]

/-! ## Where the code leaves the specification -/

set_option maxRecDepth 20000

/-- C2: for the line `$$` and the process id 12345 `expand_pid` stores the six
bytes of "12345" in the block of `strlen(command) + 1 = 3` bytes it allocated
for the result, so it returns no string, where the specification has
"12345". -/
theorem expand_pid_overflows_result :
    expand_pid "$$".toList 12345 = none
    ∧ expandFirst "$$".toList 12345 = "12345".toList
    ∧ store ("$$".toList.length + 1) "12345".toList = none
    ∧ expand_pid "echo $$ $$".toList 42 = some "echo 42 $$".toList := by
  decide

/-- C9: on the line `echo $$` with process id 42 the loop dispatches the
vector `echo`, `$$`: the line is tokenized in front of the expansion and the
expanded string is not read again, where the split of the expanded line is
`echo`, `42`. -/
theorem mainIteration_dispatches_unexpanded :
    mainIteration sampleEnv startUp "echo $$".toList
      = .next startUp "" "exit value 1\n" (.launch ["echo".toList, "$$".toList] 0)
    ∧ spaceRuns (expandFirst "echo $$".toList sampleEnv.shellPID)
      = ["echo".toList, "42".toList]
    ∧ expand_pid "echo $$".toList sampleEnv.shellPID = some "echo 42".toList := by
  decide

/-- C4: in foreground-only mode (`allowBackground == 0` after one toggle) the
line `sleep 5 &` is run with `background = 1`: the interpreter does not wait
for the child and prints its pid; only the `&` is removed from the vector. -/
theorem mainIteration_ignores_foreground_only :
    (sigtstpHandler 42 [] SIGTSTP startUp).1.allowBackground = 0
    ∧ mainIteration sampleEnv (sigtstpHandler 42 [] SIGTSTP startUp).1 "sleep 5 &".toList
      = .next { (sigtstpHandler 42 [] SIGTSTP startUp).1 with background := 1 }
          "background pid is 100\n" "background pid is 101\n"
          (.launch ["sleep".toList, "5".toList] 1) := by
  decide

/-- C10: on a line of one space and on the line `&` the loop reaches
`strcmp(args[0], "exit")` with `args[0] == NULL`. -/
theorem mainIteration_null_argv0 :
    mainIteration sampleEnv startUp " ".toList = .nullArgv0
    ∧ mainIteration sampleEnv startUp "&".toList = .nullArgv0
    ∧ mainIteration sampleEnv startUp "".toList = .skipped
    ∧ mainIteration sampleEnv startUp "# &".toList = .skipped := by
  decide

/-- C5: the command `ls /nonexistent` runs in the foreground and ends with
exit code 2; the wait block of `executeCommand` stores that status in the
copy of `lastForegroundStatus` of the child forked at line 386, which then
leaves through `exit(0)`; the interpreter waits for that child, records its
status 0, and `status` prints "exit value 0", where the recorded outcome of
the command would give "exit value 2". -/
theorem status_misses_foreground_outcome :
    childWaitStatus exitTwoEnv
        (executeCommand_child exitTwoEnv
          (tokenizeCommand exitTwoEnv.heap "ls /nonexistent".toList))
      = W_EXITCODE 2 0
    ∧ (executeCommand exitTwoEnv startUp
          (tokenizeCommand exitTwoEnv.heap "ls /nonexistent".toList) 0 101).1.lastForegroundStatus
      = W_EXITCODE 2 0
    ∧ mainIteration exitTwoEnv startUp "ls /nonexistent".toList
      = .next startUp "" "" (.launch ["ls".toList, "/nonexistent".toList] 0)
    ∧ mainIteration exitTwoEnv startUp "status".toList
      = .next startUp "exit value 0\n" "" .status
    ∧ statusBuiltin { startUp with lastForegroundStatus := W_EXITCODE 2 0 }
      = "exit value 2\n"
    ∧ statusBuiltin { startUp with lastForegroundStatus := 9 }
      = "terminated by signal 9\n" := by
  decide

/-- C6 as stated fails: the command `nosuchcmd` is not found, its child ends
with exit status 1, and `status` run right after prints "exit value 0"; the
same for `wc < missing` when the file does not open. -/
theorem status_after_failed_launch :
    launchFails sampleEnv (tokenizeCommand sampleEnv.heap "nosuchcmd".toList) = true
    ∧ childWaitStatus sampleEnv
        (executeCommand_child sampleEnv (tokenizeCommand sampleEnv.heap "nosuchcmd".toList))
      = W_EXITCODE 1 0
    ∧ mainIteration sampleEnv startUp "nosuchcmd".toList
      = .next startUp "" "exit value 1\n" (.launch ["nosuchcmd".toList] 0)
    ∧ mainIteration sampleEnv startUp "status".toList
      = .next startUp "exit value 0\n" "" .status
    ∧ launchFails noFileEnv (tokenizeCommand noFileEnv.heap "wc < missing".toList) = true
    ∧ mainIteration noFileEnv startUp "wc < missing".toList
      = .next startUp "" "exit value 1\n"
          (.launch ["wc".toList, "<".toList, "missing".toList] 0)
    ∧ mainIteration noFileEnv startUp "status".toList
      = .next startUp "exit value 0\n" "" .status := by
  decide

theorem executeCommand_child_exit_code (env : Env) (args : List Cell) (code : Int)
    (h : executeCommand_child env args = .exited code) : code = 1 := by
  unfold executeCommand_child at h
  split at h
  · injection h with e; exact e.symm
  · split at h
    · injection h with e; exact e.symm
    · cases h

theorem childWaitStatus_of_launchFails (env : Env) (args : List Cell)
    (h : launchFails env args = true) :
    childWaitStatus env (executeCommand_child env args) = W_EXITCODE 1 0 := by
  unfold launchFails at h
  cases hc : executeCommand_child env args with
  | exited code =>
    rw [executeCommand_child_exit_code env args code hc]
    rfl
  | execvp vector =>
    rw [hc] at h
    simp only [Option.isNone_iff_eq_none] at h
    simp [childWaitStatus, h]

/-- C6, amended: for every foreground command whose launch fails inside the
child (a redirection file does not open, or `execvp` returns), the child ends
with the non-zero exit status 1, and the process that waits for it in
`executeCommand` prints "exit value 1" and leaves `lastForegroundStatus`
as it was. -/
theorem failed_launch_exit_one (env : Env) (st : ShellState) (args : List Cell)
    (childPid : Int) (h : launchFails env args = true) :
    childWaitStatus env (executeCommand_child env args) = W_EXITCODE 1 0
    ∧ WIFEXITED (W_EXITCODE 1 0) = true ∧ WEXITSTATUS (W_EXITCODE 1 0) = 1
    ∧ executeCommand env st args 0 childPid
      = ({ st with foregroundChildPid := -1 }, "exit value 1\n")
    ∧ (executeCommand env st args 0 childPid).1.lastForegroundStatus
      = st.lastForegroundStatus := by
  have hs := childWaitStatus_of_launchFails env args h
  have he : executeCommand env st args 0 childPid
      = ({ st with foregroundChildPid := -1 }, "exit value 1\n") := by
    unfold executeCommand
    rw [if_pos rfl, hs]
    rfl
  exact ⟨hs, rfl, rfl, he, by rw [he]⟩

theorem failed_launch_exit_one_witness :
    executeCommand sampleEnv startUp (tokenizeCommand sampleEnv.heap "nosuchcmd".toList) 0 101
      = ({ startUp with foregroundChildPid := -1 }, "exit value 1\n") :=
  (failed_launch_exit_one sampleEnv startUp
    (tokenizeCommand sampleEnv.heap "nosuchcmd".toList) 101 (by decide)).2.2.2.1

end SmallSh
